import Mathlib

/-!
# Price monitor core: shallow embedding and verification

A shallow embedding of the price-observation history and alert-rule
evaluation engine of `price_monitor.py` (class `PriceMonitor`), together
with proofs about its behaviour.

Modelling conventions:
* Python floats are modelled as rationals (`ℚ`); every arithmetic
  operation the code performs on prices is exact on the values involved.
* Text is modelled as `List Char`; Python `str` operations used by the
  code (`strip`, `replace`, substring containment `in`, and the regex
  `[\d,]+\.?\d*` applied after comma removal) are reproduced on lists.
* External effects (`playwright` page fetching, timestamps, the file
  system) are parameters: a fetch oracle `Product → Option (List Char)`,
  a timestamp oracle, and the md5-derived product key as an arbitrary
  function `String → String`.
* The history mapping `self.history : Dict[str, List[dict]]` is a total
  function `String → List PriceRecord` defaulting to `[]`, matching the
  code's `self.history.get(key, [])` and lazy key creation.
-/

namespace PriceMonitor

/-- The `Product` dataclass of `price_monitor.py`. -/
structure Product where
  url : String
  name : String
  price_selector : String
  target_price : Option ℚ := none
  alert_on_any_change : Bool := false
  alert_threshold_percent : ℚ := 5
  deriving DecidableEq, Repr

/-- The `PriceRecord` dataclass: one successfully parsed observation.
In the code `price` has type `float` (never absent in a constructed record). -/
structure PriceRecord where
  url : String
  name : String
  price : ℚ
  currency : String
  timestamp : String
  deriving DecidableEq, Repr

/-- The `PriceAlert` dataclass. -/
structure PriceAlert where
  product : String
  url : String
  old_price : ℚ
  new_price : ℚ
  change_percent : ℚ
  alert_type : String
  timestamp : String
  deriving DecidableEq, Repr

/-! ## PriceParser: `_parse_price` -/

/-- `beginsWith pat s` : `pat` is an initial segment of `s`. -/
def beginsWith : List Char → List Char → Bool
  | [], _ => true
  | _ :: _, [] => false
  | p :: ps, c :: cs => p == c && beginsWith ps cs

/-- Python substring containment `pat in s`. -/
def containsSub (pat : List Char) : List Char → Bool
  | [] => beginsWith pat []
  | c :: rest => beginsWith pat (c :: rest) || containsSub pat rest

/-- The euro literal in the source is mis-encoded (mojibake): the bytes of
U+20AC re-decoded, giving the three characters U+00E2 U+201A U+00AC. -/
def euroLiteral : List Char := [Char.ofNat 0xE2, Char.ofNat 0x201A, Char.ofNat 0xAC]

/-- The pound literal in the source: U+00C2 U+00A3 (mojibake of U+00A3). -/
def poundLiteral : List Char := [Char.ofNat 0xC2, Char.ofNat 0xA3]

/-- The yen literal in the source: U+00C2 U+00A5 (mojibake of U+00A5). -/
def yenLiteral : List Char := [Char.ofNat 0xC2, Char.ofNat 0xA5]

/-- Currency detection chain of `_parse_price`:
`"USD"` default, then `if euro in text / elif pound / elif yen`. -/
def detectCurrency (text : List Char) : String :=
  if containsSub euroLiteral text then "EUR"
  else if containsSub poundLiteral text then "GBP"
  else if containsSub yenLiteral text then "JPY"
  else "USD"

/-- Python `str.strip()` on both ends (whitespace only). -/
def pyStrip (s : List Char) : List Char :=
  ((s.dropWhile Char.isWhitespace).reverse.dropWhile Char.isWhitespace).reverse

/-- Maximal leading run of decimal digits, and the remainder. -/
def takeDigits : List Char → List Char × List Char
  | [] => ([], [])
  | c :: rest =>
    if c.isDigit then
      let p := takeDigits rest
      (c :: p.1, p.2)
    else ([], c :: rest)

/-- First match of the regex `[\d,]+\.?\d*` in a comma-free text:
the integer digits, and the fractional digits when a dot follows
(`some []` for a trailing bare dot, as in `"12."`). -/
def firstNumToken : List Char → Option (List Char × Option (List Char))
  | [] => none
  | c :: rest =>
    if c.isDigit then
      let p := takeDigits (c :: rest)
      match p.2 with
      | '.' :: r2 => some (p.1, some (takeDigits r2).1)
      | _ => some (p.1, none)
    else firstNumToken rest

/-- Numeric value of a digit string (most significant first). -/
def digitsToNat (ds : List Char) : Nat :=
  ds.foldl (fun acc c => 10 * acc + (c.toNat - 48)) 0

/-- Python `float` on the matched token `d1[.d2]`. -/
def tokenValue (d1 : List Char) (d2 : Option (List Char)) : ℚ :=
  match d2 with
  | none => digitsToNat d1
  | some frac => (digitsToNat d1 : ℚ) + (digitsToNat frac : ℚ) / (10 : ℚ) ^ frac.length

/-- `_parse_price`: strips the text, detects the currency by the mojibake
symbol chain, removes commas, matches the first `[\d,]+\.?\d*` token and
parses it as a float; returns `(price?, currency)`. -/
def parsePrice (text : List Char) : Option ℚ × String :=
  let t := pyStrip text
  let currency := detectCurrency t
  let noCommas := t.filter (fun c => c ≠ ',')
  ((firstNumToken noCommas).map (fun p => tokenValue p.1 p.2), currency)

/-! ## AlertEvaluator: `_check_alert_conditions` -/

/-- The change-percent computation with its division guard
(`last_price > 0 ? (current - last)/last * 100 : 0`). -/
def changePercent (lastPrice currentPrice : ℚ) : ℚ :=
  if lastPrice > 0 then (currentPrice - lastPrice) / lastPrice * 100 else 0

/-- Python truthiness of `product.target_price`
(`None` and `0.0` are falsy). -/
def targetTruthy (t : Option ℚ) : Bool :=
  match t with
  | none => false
  | some x => x != 0

/-- `_check_alert_conditions`, with the product's history passed
explicitly (the code reads `self.history.get(key, [])`).  The branch
structure is the code's: an outer `if target and current <= target`
whose body sets `target_reached` only when `last > target`, with the
`drop` and `change` tests as `elif`s of the *outer* condition. -/
def checkAlertConditions (product : Product) (history : List PriceRecord)
    (current : PriceRecord) : Option PriceAlert :=
  match history.getLast? with
  | none => none
  | some last =>
    let lastPrice := last.price
    let cp := changePercent lastPrice current.price
    let alertType : Option String :=
      if targetTruthy product.target_price ∧
          current.price ≤ product.target_price.getD 0 then
        if lastPrice > product.target_price.getD 0 then some "target_reached"
        else none
      else if cp ≤ -product.alert_threshold_percent then some "drop"
      else if product.alert_on_any_change = true ∧ |cp| > 1/100 then some "change"
      else none
    alertType.map (fun t =>
      { product := product.name, url := product.url,
        old_price := lastPrice, new_price := current.price,
        change_percent := cp, alert_type := t,
        timestamp := current.timestamp })

/-! ## MonitorLoop: `scrape_price` and `check_all` -/

/-- `scrape_price`, with the fetched element text supplied by an oracle
(`none` models every failure path: navigation error, missing element,
exception).  A record is produced only when `_parse_price` yields a
truthy price (`if price:` — not `None` and not `0.0`). -/
def scrapeRecord (fetched : Option (List Char)) (product : Product)
    (ts : String) : Option PriceRecord :=
  fetched.bind (fun text =>
    (parsePrice text).1.bind (fun p =>
      if p ≠ 0 then
        some { url := product.url, name := product.name, price := p,
               currency := (parsePrice text).2, timestamp := ts }
      else none))

/-- Python `l[-100:]`: the last `n` elements. -/
def lastN (n : Nat) (l : List α) : List α := l.drop (l.length - n)

/-- The history update of `check_all`:
`self.history[key].append(record)` then `self.history[key] = self.history[key][-100:]`. -/
def appendCapped (h : List PriceRecord) (r : PriceRecord) : List PriceRecord :=
  lastN 100 (h ++ [r])

/-- One loop iteration of `check_all` for a single product: scrape,
evaluate the alert against the pre-append history, then append capped.
Returns the new history mapping and the optional alert. -/
def stepProduct (keyOf : String → String) (fetched : Product → Option (List Char))
    (tsOf : Product → String) (st : String → List PriceRecord) (p : Product) :
    (String → List PriceRecord) × Option PriceAlert :=
  match scrapeRecord (fetched p) p (tsOf p) with
  | none => (st, none)
  | some record =>
    (fun k2 => if k2 = keyOf p.url
       then appendCapped (st (keyOf p.url)) record else st k2,
     checkAlertConditions p (st (keyOf p.url)) record)

/-- The loop body of `check_all` on the accumulator (current histories,
alerts collected so far). -/
def cycleStep (keyOf : String → String) (fetched : Product → Option (List Char))
    (tsOf : Product → String)
    (acc : (String → List PriceRecord) × List PriceAlert) (p : Product) :
    (String → List PriceRecord) × List PriceAlert :=
  let r := stepProduct keyOf fetched tsOf acc.1 p
  (r.1, acc.2 ++ r.2.toList)

/-- `check_all`: fold the per-product step over the product list,
collecting alerts in order. -/
def checkAll (keyOf : String → String) (fetched : Product → Option (List Char))
    (tsOf : Product → String) (st : String → List PriceRecord)
    (products : List Product) : (String → List PriceRecord) × List PriceAlert :=
  products.foldl (cycleStep keyOf fetched tsOf) (st, [])

/-- The history reached from an empty history by a sequence of capped
appends for one product (the only mutation `check_all` performs). -/
def histOfAppends (rs : List PriceRecord) : List PriceRecord :=
  rs.foldl appendCapped []

/-! ## Claims -/

/-- Claim C3: with no prior record in history (empty history), evaluation
returns no alert: the first successful observation only seeds the history. -/
theorem C3_first_observation_no_alert (product : Product) (current : PriceRecord) :
    checkAlertConditions product [] current = none := rfl

/-- Claim C1 counterexample: the spec's own instance — target price already
crossed (prior 50 at or below target 50), threshold 5, current price 45, so
the change percent is `-10 ≤ -5` — yields NO alert, not a `drop` alert: in
the code the `drop`/`change` tests are `elif`s of the outer target test, so
a failed crossing precondition suppresses them. -/
theorem C1_counterexample :
    checkAlertConditions ⟨"u", "w", "s", some 50, false, 5⟩
        [⟨"u", "w", 50, "USD", "t0"⟩] ⟨"u", "w", 45, "USD", "t1"⟩ = none ∧
      changePercent 50 45 = -10 ∧ (-10 : ℚ) ≤ -5 ∧ (50 : ℚ) ≤ 50 := by
  refine ⟨?_, ?_, ?_, ?_⟩ <;>
    norm_num [checkAlertConditions, changePercent, targetTruthy]

/-- Claim C1 (amended): when the product's target price is set and nonzero,
the prior price is at or below the target (already crossed), and the current
price is also at or below the target, evaluation returns no alert regardless
of the change percent: the failed crossing precondition suppresses the drop
and any-change rules. -/
theorem C1_target_precondition_suppresses_drop
    (product : Product) (history : List PriceRecord) (current last : PriceRecord)
    (t : ℚ) (ht : product.target_price = some t) (ht0 : t ≠ 0)
    (hl : history.getLast? = some last)
    (hcross : last.price ≤ t) (hcur : current.price ≤ t) :
    checkAlertConditions product history current = none := by
  have hcross' : ¬ (t < last.price) := not_lt.mpr hcross
  simp [checkAlertConditions, hl, ht, targetTruthy, ht0, hcur, hcross']

/-- Witness for the amended claim C1 at the counterexample instance. -/
theorem C1_target_suppression_witness :
    (⟨"u", "w", "s", some 50, false, 5⟩ : Product).target_price = some 50 ∧
      (50 : ℚ) ≠ 0 ∧
      [(⟨"u", "w", 50, "USD", "t0"⟩ : PriceRecord)].getLast? =
        some ⟨"u", "w", 50, "USD", "t0"⟩ ∧
      (⟨"u", "w", 50, "USD", "t0"⟩ : PriceRecord).price ≤ 50 ∧
      (⟨"u", "w", 45, "USD", "t1"⟩ : PriceRecord).price ≤ 50 ∧
      checkAlertConditions ⟨"u", "w", "s", some 50, false, 5⟩
        [⟨"u", "w", 50, "USD", "t0"⟩] ⟨"u", "w", 45, "USD", "t1"⟩ = none :=
  ⟨rfl, by norm_num, rfl, by norm_num, by norm_num,
    C1_target_precondition_suppresses_drop _ _ _ _ 50 rfl (by norm_num) rfl
      (by norm_num) (by norm_num)⟩

/-- Claim C4: the code behaviour at the failing input `"€99,00"`.  The text
contains the genuine euro symbol U+20AC, yet the parser reports currency
`"USD"`: the source's currency literals are the mojibake byte sequences
(`euroLiteral` = U+00E2 U+201A U+00AC), which never match a real `'€'`. -/
theorem C4_euro_text_parses_as_USD :
    ('€' ∈ "€99,00".toList) ∧
      parsePrice "€99,00".toList = (some 9900, "USD") ∧
      detectCurrency euroLiteral = "EUR" := by
  decide

/-- `lastN` returns at most `n` elements. -/
theorem lastN_length_le (n : Nat) (l : List α) : (lastN n l).length ≤ n := by
  simp [lastN]
  omega

/-- `lastN` is the identity on lists that already fit. -/
theorem lastN_of_le {n : Nat} {l : List α} (h : l.length ≤ n) : lastN n l = l := by
  simp [lastN, Nat.sub_eq_zero_of_le h]

/-- Taking the last `n` twice around an append collapses. -/
theorem lastN_append_lastN (n : Nat) (l t : List α) :
    lastN n (lastN n l ++ t) = lastN n (l ++ t) := by
  unfold lastN
  rw [← List.drop_append_of_le_length (Nat.sub_le l.length n), List.drop_drop]
  congr 1
  simp only [List.length_drop, List.length_append]
  omega

/-- A fold of capped appends from a small accumulator is the last-100
suffix of everything appended. -/
theorem foldl_appendCapped (rs : List PriceRecord) (acc : List PriceRecord)
    (h : acc.length ≤ 100) :
    rs.foldl appendCapped acc = lastN 100 (acc ++ rs) := by
  induction rs generalizing acc with
  | nil => simpa using (lastN_of_le h).symm
  | cons r rs ih =>
    rw [List.foldl_cons, ih (appendCapped acc r) (lastN_length_le _ _)]
    show lastN 100 (appendCapped acc r ++ rs) = lastN 100 (acc ++ r :: rs)
    rw [appendCapped, lastN_append_lastN, List.append_assoc]
    rfl

/-- Claim C2: under the capped-append discipline of `check_all`, a
product's history never exceeds 100 records; it is always the suffix of
the full append sequence (head eviction only, insertion order kept); and
after the 101st append the history is exactly the tail of the sequence,
so the first-appended record is gone (and absent whenever it does not
recur later). -/
theorem C2_history_capped_fifo (rs : List PriceRecord) :
    (histOfAppends rs).length ≤ 100 ∧
      histOfAppends rs = rs.drop (rs.length - 100) ∧
      (rs.length = 101 → histOfAppends rs = rs.tail) ∧
      (∀ r rest, rs = r :: rest → rest.length = 100 → r ∉ rest →
        r ∉ histOfAppends rs) := by
  have key : histOfAppends rs = lastN 100 rs := by
    simpa [histOfAppends] using foldl_appendCapped rs [] (by simp)
  refine ⟨?_, ?_, ?_, ?_⟩
  · rw [key]; exact lastN_length_le _ _
  · rw [key]; rfl
  · intro h101
    rw [key]
    unfold lastN
    rw [h101]
    norm_num [List.drop_one]
  · intro r rest hcons hlen hmem
    subst hcons
    rw [key]
    unfold lastN
    simpa [hlen] using hmem

/-- Record `i` of the claim C2 witness sequence. -/
def witnessRecordC2 (i : Nat) : PriceRecord := ⟨"u", "w", i, "USD", "t"⟩

/-- The claim C2 witness: 101 pairwise distinct appends. -/
def witnessSeqC2 : List PriceRecord :=
  witnessRecordC2 0 :: (List.range 100).map (fun i => witnessRecordC2 (i + 1))

/-- Witness for claim C2 at a concrete sequence of 101 appends. -/
theorem C2_witness :
    witnessSeqC2.length = 101 ∧
      witnessSeqC2 =
        witnessRecordC2 0 :: (List.range 100).map (fun i => witnessRecordC2 (i + 1)) ∧
      ((List.range 100).map (fun i => witnessRecordC2 (i + 1))).length = 100 ∧
      witnessRecordC2 0 ∉ (List.range 100).map (fun i => witnessRecordC2 (i + 1)) ∧
      histOfAppends witnessSeqC2 = witnessSeqC2.tail ∧
      witnessRecordC2 0 ∉ histOfAppends witnessSeqC2 := by
  have h1 : witnessSeqC2.length = 101 := by simp [witnessSeqC2]
  have h3 : ((List.range 100).map (fun i => witnessRecordC2 (i + 1))).length = 100 := by
    simp
  have h4 : witnessRecordC2 0 ∉ (List.range 100).map (fun i => witnessRecordC2 (i + 1)) := by
    simp only [witnessRecordC2, List.mem_map, List.mem_range, not_exists]
    rintro x ⟨-, hx⟩
    have : ((x : ℚ) + 1) = 0 := by
      simpa [PriceRecord.mk.injEq, Nat.cast_add] using hx
    have hpos : (0 : ℚ) < (x : ℚ) + 1 := by positivity
    exact absurd this (ne_of_gt hpos)
  exact ⟨h1, rfl, h3, h4, (C2_history_capped_fifo witnessSeqC2).2.2.1 h1,
    (C2_history_capped_fifo witnessSeqC2).2.2.2 _ _ rfl h3 h4⟩

/-- Claim C6: target price 25.00, prior 29.99, current 24.99 gives a
`target_reached` alert whose payload still carries the change percent
`-50000/2999 ≈ -16.67`. -/
theorem C6_target_reached_reports_change_percent :
    checkAlertConditions ⟨"u", "w", "s", some 25, false, 5⟩
        [⟨"u", "w", 2999/100, "USD", "t0"⟩] ⟨"u", "w", 2499/100, "USD", "t1"⟩ =
      some ⟨"w", "u", 2999/100, 2499/100, -50000/2999, "target_reached", "t1"⟩ ∧
      |(-50000/2999 : ℚ) - (-1667/100)| < 1/100 := by
  constructor
  · norm_num [checkAlertConditions, changePercent, targetTruthy]
  · rw [abs_sub_lt_iff]; norm_num

/-- A text without decimal digits has no `[\d,]+\.?\d*` match after comma
removal. -/
theorem firstNumToken_eq_none {s : List Char} (h : ∀ c ∈ s, c.isDigit = false) :
    firstNumToken s = none := by
  induction s with
  | nil => rfl
  | cons c rest ih =>
    have hc : c.isDigit = false := h c (List.mem_cons_self c rest)
    simpa [firstNumToken, hc] using ih (fun d hd => h d (List.mem_cons_of_mem c hd))

/-- Claim C5: the parser strips thousands separators and parses the first
decimal token, so `"$1,234.56"` gives price `1234.56` (= 30864/25) with
currency `USD`; and a text containing no decimal digit parses to an
absent price. -/
theorem C5_parse_round_trip_and_no_token :
    parsePrice "$1,234.56".toList = (some (30864/25), "USD") ∧
      ∀ text : List Char, (∀ c ∈ text, c.isDigit = false) →
        (parsePrice text).1 = none := by
  constructor
  · have h1 : firstNumToken ((pyStrip "$1,234.56".toList).filter (fun c => c ≠ ',')) =
        some (['1', '2', '3', '4'], some ['5', '6']) := by decide
    have h2 : detectCurrency (pyStrip "$1,234.56".toList) = "USD" := by decide
    have h3 : digitsToNat ['1', '2', '3', '4'] = 1234 := by decide
    have h4 : digitsToNat ['5', '6'] = 56 := by decide
    simp only [parsePrice, h1, h2, Option.map_some', tokenValue, h3, h4]
    norm_num
  · intro text hnd
    have hsub : ∀ c ∈ (pyStrip text).filter (fun c => c ≠ ','), c.isDigit = false := by
      intro c hc
      apply hnd
      have hc1 := (List.mem_filter.mp hc).1
      unfold pyStrip at hc1
      have m2 := List.mem_reverse.mp hc1
      have m3 := (List.dropWhile_sublist _).subset m2
      have m4 := List.mem_reverse.mp m3
      exact (List.dropWhile_sublist _).subset m4
    simp only [parsePrice, firstNumToken_eq_none hsub, Option.map_none']

/-- Witness for claim C5's no-token clause at a digit-free text. -/
theorem C5_no_token_witness :
    (∀ c ∈ "no price here".toList, c.isDigit = false) ∧
      (parsePrice "no price here".toList).1 = none :=
  ⟨by decide, C5_parse_round_trip_and_no_token.2 _ (by decide)⟩

/-- Claim C7: a non-positive prior price degenerates the change percent
to 0 — `changePercent` never divides by it — and any alert produced in
that situation reports a change percent of 0. -/
theorem C7_nonpositive_prior_change_zero
    (lp c : ℚ) (product : Product) (history : List PriceRecord)
    (current last : PriceRecord) (hlp : lp ≤ 0)
    (hl : history.getLast? = some last) (hprice : last.price ≤ 0) :
    changePercent lp c = 0 ∧
      ∀ a ∈ checkAlertConditions product history current, a.change_percent = 0 := by
  have hz : ∀ x y : ℚ, y ≤ 0 → changePercent y x = 0 := by
    intro x y hy
    unfold changePercent
    rw [if_neg (not_lt.mpr hy)]
  refine ⟨hz c lp hlp, ?_⟩
  intro a ha
  rw [Option.mem_def] at ha
  simp only [checkAlertConditions, hl, hz current.price last.price hprice] at ha
  obtain ⟨t, ht, hrec⟩ := Option.map_eq_some'.mp ha
  rw [← hrec]

/-- Witness for claim C7 at a zero prior price. -/
theorem C7_witness :
    ((0 : ℚ) ≤ 0) ∧
      ([(⟨"u", "w", 0, "USD", "t0"⟩ : PriceRecord)].getLast? =
        some ⟨"u", "w", 0, "USD", "t0"⟩) ∧
      ((⟨"u", "w", 0, "USD", "t0"⟩ : PriceRecord).price ≤ 0) ∧
      (changePercent 0 5 = 0 ∧
        ∀ a ∈ checkAlertConditions ⟨"u", "w", "s", none, false, 5⟩
            [⟨"u", "w", 0, "USD", "t0"⟩] ⟨"u", "w", 5, "USD", "t1"⟩,
          a.change_percent = 0) :=
  ⟨le_refl 0, rfl, by norm_num,
    C7_nonpositive_prior_change_zero 0 5 _ _ _ _ (le_refl 0) rfl (by norm_num)⟩

/-- Modelled from the spec: the spec's `PriceRecord` (§3) carries an
optional price ("or absent if parsing failed"); the source has no such
record type reaching storage (its dataclass price is a plain float). -/
structure SpecPriceRecord where
  productId : String
  price : Option ℚ
  currency : String
  timestamp : String
  deriving DecidableEq

/-- Modelled from the spec: the `InvalidRecord` entry of the error
taxonomy (§7); the source defines no such error. -/
inductive StoreError where
  | invalidRecord
  deriving DecidableEq

/-- Modelled from the spec: `HistoryStore.append` (§4.2) — the source has
no standalone HistoryStore component; per the spec, append adds to the
tail of the product's sequence, evicts from the head beyond 100, and
fails with `InvalidRecord` if the record's price is absent. -/
def storeAppend (store : String → List SpecPriceRecord)
    (record : SpecPriceRecord) :
    Except StoreError (String → List SpecPriceRecord) :=
  match record.price with
  | none => Except.error StoreError.invalidRecord
  | some _ => Except.ok (fun k =>
      if k = record.productId then lastN 100 (store k ++ [record]) else store k)

/-- Claim C8: appending a record whose price is absent fails with the
`InvalidRecord` error — the call is rejected, no store is produced — for
every store state and record. -/
theorem C8_absent_price_append_rejected
    (store : String → List SpecPriceRecord) (record : SpecPriceRecord)
    (h : record.price = none) :
    storeAppend store record = Except.error StoreError.invalidRecord := by
  unfold storeAppend
  rw [h]

/-- Witness for claim C8 at a concrete price-absent record. -/
theorem C8_witness :
    (⟨"k", none, "USD", "t"⟩ : SpecPriceRecord).price = none ∧
      storeAppend (fun _ => []) ⟨"k", none, "USD", "t"⟩ =
        Except.error StoreError.invalidRecord :=
  ⟨rfl, C8_absent_price_append_rejected (fun _ => []) ⟨"k", none, "USD", "t"⟩ rfl⟩

/-- Claim C9: a product whose observation fails, or whose text yields no
parsed price, leaves every history untouched and produces no alert, and
a cycle over a product list containing it behaves exactly as the cycle
over the list without it. -/
theorem C9_failed_observation_frame
    (keyOf : String → String) (fetched : Product → Option (List Char))
    (tsOf : Product → String) (st : String → List PriceRecord)
    (ps1 ps2 : List Product) (p : Product)
    (h : fetched p = none ∨
      ∃ text, fetched p = some text ∧ (parsePrice text).1 = none) :
    (∀ st' : String → List PriceRecord,
        stepProduct keyOf fetched tsOf st' p = (st', none)) ∧
      checkAll keyOf fetched tsOf st (ps1 ++ p :: ps2) =
        checkAll keyOf fetched tsOf st (ps1 ++ ps2) := by
  have hscrape : scrapeRecord (fetched p) p (tsOf p) = none := by
    rcases h with h | ⟨text, hf, hp⟩
    · rw [h]; rfl
    · rw [hf]
      simp [scrapeRecord, hp]
  have hstep : ∀ st' : String → List PriceRecord,
      stepProduct keyOf fetched tsOf st' p = (st', none) := by
    intro st'
    simp [stepProduct, hscrape]
  refine ⟨hstep, ?_⟩
  unfold checkAll
  rw [List.foldl_append, List.foldl_append, List.foldl_cons]
  congr 1
  simp [cycleStep, hstep]

/-- Witness for claim C9 with a failing fetch over a one-product cycle. -/
theorem C9_witness :
    ((fun _ : Product => (none : Option (List Char)))
        (⟨"u", "w", "s", none, false, 5⟩ : Product) = none ∨
      ∃ text, (fun _ : Product => (none : Option (List Char)))
          (⟨"u", "w", "s", none, false, 5⟩ : Product) = some text ∧
        (parsePrice text).1 = none) ∧
      ((∀ st' : String → List PriceRecord,
          stepProduct (fun s => s) (fun _ => none) (fun _ => "t") st'
            ⟨"u", "w", "s", none, false, 5⟩ = (st', none)) ∧
        checkAll (fun s => s) (fun _ => none) (fun _ => "t") (fun _ => [])
            ([] ++ ⟨"u", "w", "s", none, false, 5⟩ :: []) =
          checkAll (fun s => s) (fun _ => none) (fun _ => "t") (fun _ => [])
            ([] ++ [])) :=
  ⟨Or.inl rfl,
    C9_failed_observation_frame (fun s => s) (fun _ => none) (fun _ => "t")
      (fun _ => []) [] [] ⟨"u", "w", "s", none, false, 5⟩ (Or.inl rfl)⟩

/-- The matched numeric token always has a nonnegative value: the regex
admits no sign. -/
theorem tokenValue_nonneg (d1 : List Char) (d2 : Option (List Char)) :
    0 ≤ tokenValue d1 d2 := by
  cases d2 with
  | none =>
    unfold tokenValue
    exact Nat.cast_nonneg _
  | some frac =>
    unfold tokenValue
    positivity

/-- Every parsed price is nonnegative. -/
theorem parsePrice_nonneg (text : List Char) (p : ℚ)
    (h : (parsePrice text).1 = some p) : 0 ≤ p := by
  simp only [parsePrice, Option.map_eq_some'] at h
  obtain ⟨q, hq, hv⟩ := h
  rw [← hv]
  exact tokenValue_nonneg q.1 q.2

/-- Every record `scrape_price` produces has a strictly positive price:
the `if price:` guard discards both `None` and `0.0`. -/
theorem scrapeRecord_price_pos (fetched : Option (List Char))
    (product : Product) (ts : String) (r : PriceRecord)
    (h : scrapeRecord fetched product ts = some r) : 0 < r.price := by
  unfold scrapeRecord at h
  obtain ⟨text, hf, h2⟩ := Option.bind_eq_some.mp h
  obtain ⟨p, hp, h3⟩ := Option.bind_eq_some.mp h2
  by_cases h0 : p = 0
  · rw [if_neg (by simp [h0])] at h3
    cases h3
  · rw [if_pos h0] at h3
    rw [← Option.some.inj h3]
    exact lt_of_le_of_ne (parsePrice_nonneg text p hp) (Ne.symm h0)

/-- All records in all histories have strictly positive prices. -/
def historiesPos (st : String → List PriceRecord) : Prop :=
  ∀ k, ∀ r ∈ st k, 0 < r.price

/-- One `check_all` iteration preserves strict positivity of all stored
prices. -/
theorem stepProduct_preserves_pos
    (keyOf : String → String) (fetched : Product → Option (List Char))
    (tsOf : Product → String) (st : String → List PriceRecord) (p : Product)
    (h : historiesPos st) :
    historiesPos (stepProduct keyOf fetched tsOf st p).1 := by
  unfold stepProduct
  cases hs : scrapeRecord (fetched p) p (tsOf p) with
  | none => exact h
  | some record =>
    intro k r hr
    simp only at hr
    by_cases hk : k = keyOf p.url
    · rw [if_pos hk, appendCapped, lastN] at hr
      have hsub : r ∈ st (keyOf p.url) ++ [record] :=
        (List.drop_sublist _ _).subset hr
      rcases List.mem_append.mp hsub with h1 | h2
      · exact h _ r h1
      · rw [List.mem_singleton.mp h2]
        exact scrapeRecord_price_pos _ _ _ _ hs
    · rw [if_neg hk] at hr
      exact h k r hr

/-- The `check_all` fold preserves strict positivity of stored prices. -/
theorem foldl_cycleStep_pos
    (keyOf : String → String) (fetched : Product → Option (List Char))
    (tsOf : Product → String) :
    ∀ (ps : List Product) (acc : (String → List PriceRecord) × List PriceAlert),
      historiesPos acc.1 →
      historiesPos (ps.foldl (cycleStep keyOf fetched tsOf) acc).1 := by
  intro ps
  induction ps with
  | nil => intro acc h; exact h
  | cons p ps ih =>
    intro acc h
    rw [List.foldl_cons]
    exact ih _ (stepProduct_preserves_pos keyOf fetched tsOf acc.1 p h)

/-- Claim C10: every record stored by a monitoring cycle has a strictly
positive price — a text parsing to exactly 0 (such as `"$0.00"`) is
discarded like a failed parse, with no record created or appended. -/
theorem C10_stored_prices_positive
    (keyOf : String → String) (fetched : Product → Option (List Char))
    (tsOf : Product → String) (st : String → List PriceRecord)
    (ps : List Product) (h : historiesPos st) :
    historiesPos (checkAll keyOf fetched tsOf st ps).1 ∧
      (parsePrice "$0.00".toList).1 = some 0 ∧
      (∀ (product : Product) (ts : String),
        scrapeRecord (some "$0.00".toList) product ts = none) := by
  have hparse : (parsePrice "$0.00".toList).1 = some 0 := by
    have h1 : firstNumToken ((pyStrip "$0.00".toList).filter (fun c => c ≠ ',')) =
        some (['0'], some ['0', '0']) := by decide
    have h3 : digitsToNat ['0'] = 0 := by decide
    have h4 : digitsToNat ['0', '0'] = 0 := by decide
    simp only [parsePrice, h1, Option.map_some', tokenValue, h3, h4]
    norm_num
  refine ⟨?_, hparse, ?_⟩
  · unfold checkAll
    exact foldl_cycleStep_pos keyOf fetched tsOf ps (st, []) h
  · intro product ts
    have hparse' : (parsePrice ['$', '0', '.', '0', '0']).1 = some 0 := hparse
    simp [scrapeRecord, hparse']

/-- Witness for claim C10 over an empty starting history. -/
theorem C10_witness :
    historiesPos (fun _ => []) ∧
      (historiesPos (checkAll (fun s => s) (fun _ => none) (fun _ => "t")
          (fun _ => []) []).1 ∧
        (parsePrice "$0.00".toList).1 = some 0 ∧
        (∀ (product : Product) (ts : String),
          scrapeRecord (some "$0.00".toList) product ts = none)) :=
  ⟨fun _ r hr => absurd hr (List.not_mem_nil r),
    C10_stored_prices_positive (fun s => s) (fun _ => none) (fun _ => "t")
      (fun _ => []) [] (fun _ r hr => absurd hr (List.not_mem_nil r))⟩

end PriceMonitor
